import Mathlib

/-
Verification of the lazyraster rasterization gateway against its
natural-language specification.

The Go source is shallowly embedded: pure functions become Lean functions,
stateful code becomes explicit state passing (or, for the single-flight
protocol, a step relation over interleavings), machine integers become
Int/Nat/Rat, fallible code returns Except/Option.  External collaborators
(the AWS S3 client, the Go standard-library AES-GCM cipher, the lazypdf
renderer, strconv.ParseFloat, urlsign.IsValidSignature) are passed in as
parameters, mirroring how the Go code consumes them through interfaces.
-/

namespace LazyRaster

/-! ## http.go — RasterHttpServer.isValidSignature (claim C10)

`serveHttp` trims the configured secret (`urlSecret = strings.TrimSpace(urlSecret)`,
http.go:654) before storing it on the server.  `isValidSignature`
(http.go:189-200) returns true immediately when `len(h.urlSecret) < 1`;
otherwise it consults `urlsign.IsValidSignature` (an external library,
modelled by the boolean parameter `sigValid`) and writes a 403 on failure. -/

/-- Model of Go `strings.TrimSpace`: drop leading and trailing whitespace. -/
def goTrimSpace (s : String) : String :=
  String.mk ((s.toList.dropWhile Char.isWhitespace).reverse.dropWhile Char.isWhitespace).reverse

/-- Embedding of http.go `serveHttp`'s secret normalization:
`urlSecret = strings.TrimSpace(urlSecret)`. -/
def serveHttpSecret (urlSecret : String) : String :=
  goTrimSpace urlSecret

/-- Embedding of http.go `RasterHttpServer.isValidSignature`.  Returns the
boolean result and the HTTP error status written to the response, if any.
`sigValid` stands for the external `urlsign.IsValidSignature(...)` call. -/
def isValidSignature (urlSecret : String) (sigValid : Bool) : Bool × Option Nat :=
  if urlSecret.length < 1 then (true, none)
  else if !sigValid then (false, some 403)
  else (true, none)

/-! ## internal/service/cache.go — Cache.Get (claim C7)

The backing object store (`s3iface.S3API.GetObjectWithContext`) is external;
its possible outcomes are modelled by `S3GetResult`. -/

/-- Outcome of the external S3 GetObject call consumed by `Cache.Get`. -/
inductive S3GetResult where
  | found (body : List Nat)
  | noSuchKey
  | otherError (msg : String)
deriving DecidableEq, Repr

/-- Embedding of internal/service/cache.go `Cache.Get`: a `NoSuchKey` error
from the store is translated to `(nil, nil)`, i.e. `.ok none`; any other
error propagates; a found object's body is returned. -/
def cacheGet (s3 : String → S3GetResult) (key : String) : Except String (Option (List Nat)) :=
  match s3 key with
  | .found body => .ok (some body)
  | .noSuchKey => .ok none
  | .otherError msg => .error ("fail to fetch the object at the key: " ++ msg)

/-- Embedding of internal/service/cache.go `Cache.Put`: stores the payload at
the key, as a functional update of the store. -/
def cachePut (s3 : String → S3GetResult) (key : String) (payload : List Nat) :
    String → S3GetResult :=
  fun k => if k = key then .found payload else s3 k

/-! ## internal/service/cipher.go — Cipher.Get / Cipher.Put (claims C6, C7)

The Go standard library AES-GCM primitive (`crypto/cipher.AEAD`) is external
to the repository; it is modelled by the `AEAD` structure below.  Its
correctness contract (opening what was sealed under the same nonce yields the
plaintext) enters the round-trip theorem as a hypothesis. -/

/-- Model of the external `crypto/cipher.AEAD` interface.  `sealFn n p` is
the ciphertext produced by sealing plaintext `p` under nonce `n` (Go's
`Seal(dst, n, p, nil)` appends exactly this to `dst`); `openFn n c` is Go's
`Open(nil, n, c, nil)`. -/
structure AEAD where
  nonceSize : Nat
  sealFn : List Nat → List Nat → List Nat
  openFn : List Nat → List Nat → Option (List Nat)

/-- Embedding of internal/service/cipher.go `Cipher.Put` (lines 86-106):
`result := c.client.Seal(nonce, nonce, payload, nil)` writes
`nonce ‖ ciphertext`.  The freshly generated random nonce (from the external
`crypto/rand`) is a parameter. -/
def cipherPut (aead : AEAD) (nonce : List Nat) (payload : List Nat) : List Nat :=
  nonce ++ aead.sealFn nonce payload

/-- Embedding of internal/service/cipher.go `Cipher.Get` (lines 53-83):
propagate storage errors, pass a `nil` reader through as a miss, reject
payloads shorter than the nonce, split `nonce ‖ ciphertext`, and open. -/
def cipherGet (aead : AEAD) (storageResult : Except String (Option (List Nat))) :
    Except String (Option (List Nat)) :=
  match storageResult with
  | .error e => .error e
  | .ok none => .ok none
  | .ok (some payload) =>
    if payload.length < aead.nonceSize then
      .error "payload smaller than nonce size"
    else
      let nonce := payload.take aead.nonceSize
      let ciphertext := payload.drop aead.nonceSize
      match aead.openFn nonce ciphertext with
      | none => .error "fail to decrypt payload"
      | some result => .ok (some result)

/-! ## filecache (src/unnamed/part_002) — sequential semantics (claim C2)

`FileCache.MaybeDownload` (part_002:83-122) manipulates a `Waiting` map of
keys to channels.  The sequential (single-caller) semantics of one
`MaybeDownload` call is embedded below; the download outcome
(`DownloadFunc`) is a parameter.  The state records which keys currently
have an in-flight channel, which channels have been closed (the completion
signal), and the LRU contents. -/

/-- State of the part_002 `FileCache` visible to `MaybeDownload`: the
`Waiting` map (keys that currently own a channel), the set of keys whose
channel has been closed, and the LRU entries (filename to storage path). -/
structure FCState where
  waiting : List String
  closed : List String
  entries : List (String × String)
deriving DecidableEq, Repr

/-- Embedding of part_002 `FileCache.MaybeDownload` for a single caller.
Line-by-line: if a channel exists for the key, wait on it and return nil;
if the cache already contains the key, return nil; otherwise create the
channel, run `DownloadFunc`, and — only on success — add the LRU entry,
close the channel and delete it from the map.  On a download error the
function returns at line 110 without touching the channel. -/
def maybeDownload (s : FCState) (filename storagePath : String)
    (download : Except String Unit) : FCState × Except String Unit :=
  if filename ∈ s.waiting then
    (s, .ok ())
  else if s.entries.any (fun e => e.1 = filename) then
    (s, .ok ())
  else
    let s1 : FCState := { s with waiting := filename :: s.waiting }
    match download with
    | .error e => (s1, .error e)
    | .ok () =>
      let s2 : FCState := { s1 with entries := (filename, storagePath) :: s1.entries }
      ({ s2 with
          closed := filename :: s2.closed,
          waiting := s2.waiting.filter (fun f => f ≠ filename) },
        .ok ())

/-! ## internal/transport/handler.go — handler.urlToVerify (claim C4)

`urlToVerify` (handler.go:184-194) deletes every query parameter whose key is
not in the whitelist page / token / token-ttl, re-encodes the remaining
`url.Values` (Go sorts the keys and percent-encodes keys and values), and
returns `r.URL.String()`, which appends `?` plus the encoded query only when
it is non-empty.  A query is modelled as the list of its key-value pairs in
occurrence order; Go's `Values.Encode` is modelled by a stable sort on the
key followed by escaping, which reproduces its sorted-keys /
values-in-order output. -/

/-- Character class kept verbatim by Go `url.QueryEscape` (RFC 3986
unreserved characters). -/
def queryUnreserved (c : Char) : Bool :=
  c.isAlpha || c.isDigit || c = '-' || c = '_' || c = '.' || c = '~'

/-- Upper-case hexadecimal digit for percent-encoding. -/
def hexUpper (n : Nat) : Char :=
  if n < 10 then Char.ofNat (48 + n) else Char.ofNat (55 + n)

/-- Model of Go `url.QueryEscape`: unreserved characters pass through, space
becomes `+`, everything else is percent-encoded.  (Go escapes the UTF-8
bytes of a rune; the model escapes per code point, which agrees on ASCII —
all characters reachable in the whitelisted parameters.) -/
def queryEscape (s : String) : String :=
  String.mk (s.toList.foldr
    (fun c acc =>
      if c = ' ' then '+' :: acc
      else if queryUnreserved c then c :: acc
      else '%' :: hexUpper (c.toNat / 16) :: hexUpper (c.toNat % 16) :: acc)
    [])

/-- Lexicographic comparison of character lists, modelling Go's byte-wise
string order (identical on the ASCII keys that occur in queries). -/
def charListLe : List Char → List Char → Bool
  | [], _ => true
  | _ :: _, [] => false
  | a :: as, b :: bs =>
    if a.toNat < b.toNat then true
    else if b.toNat < a.toNat then false
    else charListLe as bs

/-- Key order used by `url.Values.Encode` (Go `sort.Strings`). -/
def keyLe (a b : String) : Bool :=
  charListLe a.toList b.toList

/-- Stable insertion of one element into a list sorted by `le`: the element
lands after every earlier element that is `le` it. -/
def insertStable (le : α → α → Bool) (a : α) : List α → List α
  | [] => [a]
  | b :: l => if le b a then b :: insertStable le a l else a :: b :: l

/-- Stable sort of query pairs by key, as performed by `url.Values.Encode`
(sorted keys; for one key, values in occurrence order). -/
def sortPairs (q : List (String × String)) : List (String × String) :=
  q.foldl (fun acc kv => insertStable (fun a b => keyLe a.1 b.1) kv acc) []

/-- Model of Go `url.Values.Encode` on a flattened key-value list. -/
def encodeQuery (q : List (String × String)) : String :=
  String.intercalate "&"
    ((sortPairs q).map (fun kv => queryEscape kv.1 ++ "=" ++ queryEscape kv.2))

/-- The query keys `handler.urlToVerify` keeps (handler.go:187). -/
def verifyWhitelist : List String := ["page", "token", "token-ttl"]

/-- Embedding of internal/transport/handler.go `handler.urlToVerify`
(lines 184-194): delete every non-whitelisted parameter, re-encode, and
render the URL (`?` is emitted only for a non-empty encoded query, as in
Go's `URL.String`). -/
def urlToVerify (path : String) (query : List (String × String)) : String :=
  let kept := query.filter (fun kv => kv.1 ∈ verifyWhitelist)
  let encoded := encodeQuery kept
  if encoded = "" then path else path ++ "?" ++ encoded

/-! ## internal/service/worker.go — Worker.Process (claims C5, C9)

`Worker.Process` (worker.go:298-408) validates the request bounds, checks
the URL signature, fetches the file concurrently, and renders the requested
page.  The external pieces — `urlsign.IsValidSignature`, the S3/HTTP fetch,
and the lazypdf renderer — are parameters.  `scale` is a Go float32; it is
modelled as a rational, which agrees with IEEE comparison on every non-NaN
float32 value. -/

/-- Error taxonomy of internal/service: `newClientError` /
`newNotFoundError` wrap an error so that `errors.Is` recognises `ErrClient`
/ `ErrNotFound`; everything else is a plain internal error. -/
inductive WErr where
  | client (msg : String)
  | notFoundErr (msg : String)
  | internal (msg : String)
deriving DecidableEq, Repr

/-- Two's-complement wrap of a Go `int` (int64): normalize into
[-9223372036854775808, 9223372036854775807].  The literals are 2^63 and
2^64. -/
def int64Wrap (n : Int) : Int :=
  (n + 9223372036854775808) % 18446744073709551616 - 9223372036854775808

/-- Embedding of the validation prefix of `Worker.Process`
(worker.go:304-325): `page--` then the bounds checks, in source order.
The decrement is Go int64 arithmetic, so it wraps: at
`page = -9223372036854775808` the decrement yields 9223372036854775807
and the `page < 0` check passes. -/
def processValidation (page width : Int) (scale : ℚ) (dpi : Int) : Option WErr :=
  if int64Wrap (page - 1) < 0 then some (.client "invalid page")
  else if width < 0 then some (.client "invalid width")
  else if width > 4096 then some (.client "invalid width, exceeds 4096")
  else if scale < 0 then some (.client "invalid scale")
  else if scale > 3 then some (.client "invalid scale, exceeds 3")
  else if dpi > 600 then some (.client "invalid dpi, exceeds 600")
  else none

/-- Embedding of internal/service/worker.go `Worker.Process`
(lines 298-408).  Returns the outcome together with a flag recording
whether the file fetch was started (the goroutine at line 334 is only
spawned after validation and the signature check succeed).  `render f p`
models `lazypdf.SaveToPNG` / `lazypdf.SaveToHTML` for format `f` on
payload `p`; annotation compositing is folded into `render`. -/
def workerProcess (page width : Int) (scale : ℚ) (dpi : Int) (format : String)
    (sigValid : Bool) (fetchResult : Except WErr (List Nat))
    (render : String → List Nat → Except WErr (List Nat)) :
    Except WErr (List Nat) × Bool :=
  match processValidation page width scale dpi with
  | some e => (.error e, false)
  | none =>
    if !sigValid then (.error (.client "invalid token"), false)
    else
      match fetchResult with
      | .error e => (.error e, true)
      | .ok payload =>
        if payload.length = 0 then (.error (.internal "empty payload"), true)
        else if format = "png" then (render "png" payload, true)
        else if format = "html" then (render "html" payload, true)
        else (.error (.internal ("unknown format " ++ format)), true)

/-- Embedding of the error-to-status mapping of `handler.document`
(handler.go:125-134): `ErrClient` maps to 400, `ErrNotFound` to 404,
anything else to 500; success writes 200. -/
def statusOfProcessResult : Except WErr (List Nat) → Nat
  | .ok _ => 200
  | .error (.client _) => 400
  | .error (.notFoundErr _) => 404
  | .error (.internal _) => 500

/-! ## internal/transport/handler.go — handler.document (claims C3, C9)

The handler parses `page`, `width`, `dpi`, `scale` and `format` from the
query (handler.go:53-113), then calls `Worker.Process` and maps errors to
statuses.  `strconv.Atoi` is modelled by `goAtoi`; `strconv.ParseFloat`
(used only for `scale`) stays an explicit function parameter. -/

/-- Model of Go `strconv.Atoi`: optional sign, one or more decimal digits,
nothing else.  (The int64 range check matters only for inputs of twenty or
more digits and is not modelled.) -/
def goAtoi (s : String) : Option Int :=
  match s.toList with
  | [] => none
  | c :: rest =>
    let signed : Bool × List Char :=
      if c = '-' then (true, rest)
      else if c = '+' then (false, rest)
      else (false, c :: rest)
    if signed.2 = [] then none
    else if signed.2.all Char.isDigit then
      let n : Nat := signed.2.foldl (fun acc d => acc * 10 + (d.toNat - 48)) 0
      some (if signed.1 then -(n : Int) else (n : Int))
    else none

/-- Query parameters read by `handler.document`; `none` models an absent
parameter (Go's `Query().Get` returning the empty string). -/
structure DocQuery where
  page : Option String
  width : Option String
  dpi : Option String
  scale : Option String
  format : Option String
  tokenTTL : Option String
deriving Repr

/-- A `DocQuery` with every parameter absent. -/
def DocQuery.empty : DocQuery :=
  ⟨none, none, none, none, none, none⟩

/-- Outcome of `handler.document`: the metadata branch (no `page`
parameter), an error status, or a 200 with the response content type and
the format handed to the service. -/
inductive DocOutcome where
  | metadata
  | failed (status : Nat)
  | rendered (status : Nat) (contentType : String) (format : String)
deriving DecidableEq, Repr

/-- Embedding of the `format` switch of `handler.document`
(handler.go:99-113): `png` and `html` are accepted with their content
types, an absent parameter defaults to `png`, anything else is a 400. -/
def handlerFormat (format : Option String) : Option (String × String) :=
  match format with
  | none => some ("png", "image/png")
  | some f =>
    if f = "png" then some ("png", "image/png")
    else if f = "html" then some ("html", "text/html")
    else if f = "" then some ("png", "image/png")
    else none

/-- Embedding of internal/transport/handler.go `handler.document`
(lines 44-143): parse `page` (absent means metadata), `width`, `dpi`
(via `strconv.Atoi`), `scale` (via `strconv.ParseFloat`, the `parseFloat`
parameter), resolve the format, call the service and map the result to a
status.  `process` stands for `h.documentService.Process`. -/
def documentHandler (parseFloat : String → Option ℚ) (q : DocQuery)
    (process : Int → Int → ℚ → Int → String → Except WErr (List Nat)) : DocOutcome :=
  match q.page with
  | none => .metadata
  | some rawPage =>
    match goAtoi rawPage with
    | none => .failed 400
    | some page =>
      let width? : Option Int := match q.width with
        | none => some 0
        | some s => goAtoi s
      match width? with
      | none => .failed 400
      | some width =>
        let dpi? : Option Int := match q.dpi with
          | none => some 0
          | some s => goAtoi s
        match dpi? with
        | none => .failed 400
        | some dpi =>
          let scale? : Option ℚ := match q.scale with
            | none => some 0
            | some s => parseFloat s
          match scale? with
          | none => .failed 400
          | some scale =>
            match handlerFormat q.format with
            | none => .failed 400
            | some (format, contentType) =>
              match process page width scale dpi format with
              | .ok _ => .rendered 200 contentType format
              | .error e => .failed (statusOfProcessResult (.error e))

/-- Modelled from the spec: the token-ttl expiry guard of
`handler.document` is not present in src — only its test
`TestHandlerDocumentTokenTTLExpired` (part_003:57-75) is.  Per the spec,
`token-ttl` is interpreted as a Unix timestamp and the request fails as
unauthorized (401) when `token-ttl < now`. -/
def tokenTTLGuard (rawTTL : Option String) (now : Int) : Option Nat :=
  match rawTTL with
  | none => none
  | some s =>
    match goAtoi s with
    | none => none
    | some t => if t < now then some 401 else none

/-- The document handler extended with the spec-modelled token-ttl guard:
an expired `token-ttl` short-circuits the request with a 401. -/
def documentHandlerTTL (parseFloat : String → Option ℚ) (q : DocQuery) (now : Int)
    (process : Int → Int → ℚ → Int → String → Except WErr (List Nat)) : DocOutcome :=
  match tokenTTLGuard q.tokenTTL now with
  | some status => .failed status
  | none => documentHandler parseFloat q process

/-! ## raster_cache.go — RasterCache (claim C8)

`RasterCache` (raster_cache.go:24-97) is an LRU of `lazypdf.Rasterizer`
handles keyed by local file path.  `onEvicted` stops the evicted handle;
the hashicorp LRU runs it on capacity eviction, on `Remove` and on `Purge`.
main.go:248-252 couples the FileCache to it: `fCache.OnEvict` calls
`rasterCache.Remove(filename)`.  Handles are modelled by numeric ids
(allocated by `NewRasterizer`); `stopped` records every id on which
`Stop()` has been called.  The entry list is most-recently-used first. -/

/-- State of the `RasterCache` model: LRU entries (path to handle id,
most-recent first), the set of stopped handle ids, the next fresh handle
id, and the LRU capacity. -/
structure RCState where
  entries : List (String × Nat)
  stopped : List Nat
  nextId : Nat
  capacity : Nat
deriving DecidableEq, Repr

/-- Handle cached for a path, if any (`lru.Cache.Get` / `Contains`). -/
def rcLookup (entries : List (String × Nat)) (f : String) : Option Nat :=
  (entries.find? (fun e => e.1 = f)).map (fun e => e.2)

/-- Remove the entry of a key from the LRU list. -/
def rcErase (entries : List (String × Nat)) (f : String) : List (String × Nat) :=
  entries.filter (fun e => e.1 ≠ f)

/-- Embedding of raster_cache.go `RasterCache.GetRasterizer` (lines 51-71):
on a hit the cached handle is returned (the LRU get refreshes its
recency); on a miss a new rasterizer is created, started and added, the
LRU evicting — and thereby stopping, via `onEvicted` (lines 88-97) — its
oldest entry when over capacity. -/
def rcGet (s : RCState) (f : String) : RCState × Nat :=
  match rcLookup s.entries f with
  | some h => ({ s with entries := (f, h) :: rcErase s.entries f }, h)
  | none =>
    let h := s.nextId
    let inserted := (f, h) :: s.entries
    if inserted.length > s.capacity then
      ({ s with
          entries := inserted.take s.capacity,
          stopped := (inserted.drop s.capacity).map (fun e => e.2) ++ s.stopped,
          nextId := h + 1 }, h)
    else ({ s with entries := inserted, nextId := h + 1 }, h)

/-- Embedding of raster_cache.go `RasterCache.Remove` (lines 74-78): if the
path is cached, remove it, which triggers `onEvicted` and stops the
handle. -/
def rcRemove (s : RCState) (f : String) : RCState :=
  match rcLookup s.entries f with
  | none => s
  | some h => { s with entries := rcErase s.entries f, stopped := h :: s.stopped }

/-- Embedding of raster_cache.go `RasterCache.Purge` (lines 82-84):
`onEvicted` runs — and stops the handle — for every entry. -/
def rcPurge (s : RCState) : RCState :=
  { s with entries := [], stopped := s.entries.map (fun e => e.2) ++ s.stopped }

/-- Embedding of the FileCache coupling in main.go:248-252: `fCache.OnEvict`
calls `rasterCache.Remove` on the evicted local path. -/
def fileCacheOnEvict (s : RCState) (localPath : String) : RCState :=
  rcRemove s localPath

/-- Operations driving the `RasterCache` model. -/
inductive RCOp where
  | get (f : String)
  | remove (f : String)
  | purge
  | fileEvict (f : String)
deriving DecidableEq, Repr

/-- One operation applied to the cache state. -/
def rcStep (s : RCState) : RCOp → RCState
  | .get f => (rcGet s f).1
  | .remove f => rcRemove s f
  | .purge => rcPurge s
  | .fileEvict f => fileCacheOnEvict s f

/-- Initial `RasterCache` of a given capacity (`NewRasterCache`). -/
def rcInit (capacity : Nat) : RCState :=
  ⟨[], [], 0, capacity⟩

/-- The cache state after a sequence of operations. -/
def rcRun (capacity : Nat) (ops : List RCOp) : RCState :=
  ops.foldl rcStep (rcInit capacity)

/-- Invariant of the `RasterCache`: the capacity is positive (the
hashicorp LRU rejects smaller sizes), path keys are unique, handle ids are
unique, no cached handle has been stopped, and every id in use is below
the allocation counter. -/
def rcInv (s : RCState) : Prop :=
  1 ≤ s.capacity
  ∧ (s.entries.map (fun e => e.1)).Nodup
  ∧ (s.entries.map (fun e => e.2)).Nodup
  ∧ (∀ e ∈ s.entries, e.2 ∉ s.stopped)
  ∧ (∀ e ∈ s.entries, e.2 < s.nextId)
  ∧ (∀ x ∈ s.stopped, x < s.nextId)

/-- A `strconv.ParseFloat` stand-in for requests that carry no `scale`
parameter (it is then never consulted). -/
def parseFloatNone : String → Option ℚ :=
  fun _ => none

/-- A document request with `page=1`, the given `format` value and no
other parameter. -/
def formatReq (format : Option String) : DocQuery :=
  ⟨some "1", none, none, none, format, none⟩

/-- A document service that renders successfully, producing one byte. -/
def processOk : Int → Int → ℚ → Int → String → Except WErr (List Nat) :=
  fun _ _ _ _ _ => .ok [0]

/-! ## filecache (src/unnamed/part_002) — single-flight interleavings (claim C1)

Concurrent `Fetch(k)` calls for one key are modelled as an interleaving
semantics: each goroutine executing `MaybeDownload` (part_002:83-122) is a
program counter, and every lock-protected region of the code is one atomic
step.  The shared state holds the `Waiting` map restricted to the key (slot
present or not), whether its channel has been closed, whether the LRU holds
the key, and how many times `DownloadFunc` has been invoked. -/

/-- Program counter of one goroutine running `MaybeDownload` for the key.
`start` is the first locked region (lines 85-105: check `Waiting`, check
`Contains`, or create the channel); `wait` blocks on the channel (line 90);
`fetch` runs `DownloadFunc` (line 108); `install` is `Cache.Add`
(line 113); `closeSlot` is the second locked region (lines 115-119: close
the channel and delete it).  Terminal counters: `hitDone` (cache hit),
`waitDone` (released waiter), `ownerDone` (successful downloader),
`ownerFail` (downloader returned an error, line 110). -/
inductive SFPc where
  | start
  | wait
  | fetch
  | install
  | closeSlot
  | hitDone
  | waitDone
  | ownerDone
  | ownerFail
deriving DecidableEq, Repr

/-- Shared state of the single-flight protocol for one key, together with
the program counters of the concurrent callers. -/
structure SFState where
  pcs : List SFPc
  slot : Bool
  sigClosed : Bool
  cached : Bool
  downloads : Nat
deriving DecidableEq, Repr

/-- Initial state: `n` concurrent `Fetch` calls about to run, no slot, no
signal, key absent, downloader never invoked. -/
def sfInit (n : Nat) : SFState :=
  ⟨List.replicate n .start, false, false, false, 0⟩

/-- One atomic step of one goroutine, by the lock discipline of
`MaybeDownload`.  The first locked region branches three ways; the
download, the `Cache.Add` and the close-and-delete region are separate
steps; a waiter proceeds only once the channel is closed. -/
inductive SFStep : SFState → SFState → Prop where
  | toWait (l₁ l₂ : List SFPc) (s : SFState) :
      s.pcs = l₁ ++ .start :: l₂ → s.slot = true →
      SFStep s { s with pcs := l₁ ++ .wait :: l₂ }
  | toHit (l₁ l₂ : List SFPc) (s : SFState) :
      s.pcs = l₁ ++ .start :: l₂ → s.slot = false → s.cached = true →
      SFStep s { s with pcs := l₁ ++ .hitDone :: l₂ }
  | createSlot (l₁ l₂ : List SFPc) (s : SFState) :
      s.pcs = l₁ ++ .start :: l₂ → s.slot = false → s.cached = false →
      SFStep s { s with pcs := l₁ ++ .fetch :: l₂, slot := true }
  | fetchOk (l₁ l₂ : List SFPc) (s : SFState) :
      s.pcs = l₁ ++ .fetch :: l₂ →
      SFStep s { s with pcs := l₁ ++ .install :: l₂, downloads := s.downloads + 1 }
  | fetchErr (l₁ l₂ : List SFPc) (s : SFState) :
      s.pcs = l₁ ++ .fetch :: l₂ →
      SFStep s { s with pcs := l₁ ++ .ownerFail :: l₂, downloads := s.downloads + 1 }
  | installDone (l₁ l₂ : List SFPc) (s : SFState) :
      s.pcs = l₁ ++ .install :: l₂ →
      SFStep s { s with pcs := l₁ ++ .closeSlot :: l₂, cached := true }
  | closeDone (l₁ l₂ : List SFPc) (s : SFState) :
      s.pcs = l₁ ++ .closeSlot :: l₂ →
      SFStep s { s with pcs := l₁ ++ .ownerDone :: l₂, sigClosed := true, slot := false }
  | waitRelease (l₁ l₂ : List SFPc) (s : SFState) :
      s.pcs = l₁ ++ .wait :: l₂ → s.sigClosed = true →
      SFStep s { s with pcs := l₁ ++ .waitDone :: l₂ }

/-- States reachable from `n` concurrent callers by any interleaving. -/
def SFReachable (n : Nat) (s : SFState) : Prop :=
  Relation.ReflTransGen SFStep (sfInit n) s

/-- Counters of a goroutine that currently owns or owned the slot. -/
def sfOwnerPc : SFPc → Bool
  | .fetch | .install | .closeSlot | .ownerDone | .ownerFail => true
  | _ => false

/-- Counters of a goroutine whose `DownloadFunc` call has happened. -/
def sfPastFetch : SFPc → Bool
  | .install | .closeSlot | .ownerDone | .ownerFail => true
  | _ => false

/-- Counters of a goroutine holding the slot entry alive (the channel is
deleted only in the close region; a failed owner never deletes it). -/
def sfSlotHeld : SFPc → Bool
  | .fetch | .install | .closeSlot | .ownerFail => true
  | _ => false

/-- Counters of a goroutine that has already run `Cache.Add` for the key. -/
def sfCachedMark : SFPc → Bool
  | .closeSlot | .ownerDone => true
  | _ => false

/-- Counter of the owner after closing the channel. -/
def sfDoneMark : SFPc → Bool
  | .ownerDone => true
  | _ => false

/-- Counter of a released waiter. -/
def sfWaitDoneMark : SFPc → Bool
  | .waitDone => true
  | _ => false

/-- Numeric value of a flag, for counting arguments. -/
def sfFlag (b : Bool) : Nat :=
  cond b 1 0

/-- Inductive invariant of the single-flight protocol: the download count
equals the number of goroutines past their `DownloadFunc` call, at most
one goroutine ever enters the owner path, and the slot flag, cache flag
and signal flag each mirror the owner's progress.  Waiters complete only
after the signal has been closed. -/
def sfInv (s : SFState) : Prop :=
  s.downloads = s.pcs.countP sfPastFetch
  ∧ s.pcs.countP sfOwnerPc ≤ 1
  ∧ s.pcs.countP sfSlotHeld = sfFlag s.slot
  ∧ s.pcs.countP sfCachedMark = sfFlag s.cached
  ∧ s.pcs.countP sfDoneMark = sfFlag s.sigClosed
  ∧ (s.pcs.countP sfWaitDoneMark = 0 ∨ s.sigClosed = true)

/-! ## Theorems -/

/-- Splitting a `countP` around one replaced element. -/
theorem countP_mid (p : SFPc → Bool) (l₁ l₂ : List SFPc) (x : SFPc) :
    (l₁ ++ x :: l₂).countP p = l₁.countP p + l₂.countP p + (if p x then 1 else 0) := by
  rw [List.countP_append, List.countP_cons]
  omega

/-- The owner counters split into slot-holding counters and the
successfully-finished counter. -/
theorem countP_owner_split (l : List SFPc) :
    l.countP sfOwnerPc ≤ l.countP sfSlotHeld + l.countP sfDoneMark := by
  induction l with
  | nil => simp
  | cons a l ih =>
    cases a <;> simp [List.countP_cons, sfOwnerPc, sfSlotHeld, sfDoneMark] <;> omega

/-- Monotonicity of `countP` into the owner counters. -/
theorem countP_le_owner (p : SFPc → Bool) (hp : ∀ x, p x = true → sfOwnerPc x = true)
    (l : List SFPc) : l.countP p ≤ l.countP sfOwnerPc :=
  List.countP_mono_left (fun x _ hx => hp x hx)

/-- Goroutines past the download are on the owner path. -/
theorem sfPastFetch_le_owner (l : List SFPc) : l.countP sfPastFetch ≤ l.countP sfOwnerPc :=
  countP_le_owner _ (fun x => by cases x <;> simp [sfPastFetch, sfOwnerPc]) l

/-- Slot-holding goroutines are on the owner path. -/
theorem sfSlotHeld_le_owner (l : List SFPc) : l.countP sfSlotHeld ≤ l.countP sfOwnerPc :=
  countP_le_owner _ (fun x => by cases x <;> simp [sfSlotHeld, sfOwnerPc]) l

/-- Goroutines past `Cache.Add` are on the owner path. -/
theorem sfCachedMark_le_owner (l : List SFPc) : l.countP sfCachedMark ≤ l.countP sfOwnerPc :=
  countP_le_owner _ (fun x => by cases x <;> simp [sfCachedMark, sfOwnerPc]) l

/-- The finished owner is on the owner path. -/
theorem sfDoneMark_le_owner (l : List SFPc) : l.countP sfDoneMark ≤ l.countP sfOwnerPc :=
  countP_le_owner _ (fun x => by cases x <;> simp [sfDoneMark, sfOwnerPc]) l

/-- A finished owner has run `Cache.Add`. -/
theorem sfDoneMark_le_cached (l : List SFPc) : l.countP sfDoneMark ≤ l.countP sfCachedMark :=
  List.countP_mono_left (fun x _ hx => by cases x <;> simp_all [sfDoneMark, sfCachedMark])

/-- A finished owner has run the download. -/
theorem sfDoneMark_le_pastFetch (l : List SFPc) : l.countP sfDoneMark ≤ l.countP sfPastFetch :=
  List.countP_mono_left (fun x _ hx => by cases x <;> simp_all [sfDoneMark, sfPastFetch])

/-- No counter of the initial state is counted by a predicate that is
false on `start`. -/
theorem countP_replicate_start (p : SFPc → Bool) (hp : p .start = false) (n : Nat) :
    (List.replicate n SFPc.start).countP p = 0 := by
  induction n with
  | zero => simp
  | succ k ih => simp [List.replicate_succ, List.countP_cons, ih, hp]

/-- The invariant holds initially. -/
theorem sfInv_init (n : Nat) : sfInv (sfInit n) := by
  refine ⟨?_, ?_, ?_, ?_, ?_, ?_⟩ <;>
    simp [sfInit, sfFlag, countP_replicate_start, sfPastFetch, sfOwnerPc, sfSlotHeld,
      sfCachedMark, sfDoneMark, sfWaitDoneMark]

/-- The invariant is preserved by every atomic step of `MaybeDownload`. -/
theorem sfInv_step {s t : SFState} (hinv : sfInv s) (hstep : SFStep s t) : sfInv t := by
  obtain ⟨h1, h2, h3, h4, h5, h6⟩ := hinv
  cases hstep with
  | toWait l₁ l₂ _ hpcs hslot =>
    rw [hpcs] at h1 h2 h3 h4 h5 h6
    simp [countP_mid, sfPastFetch, sfOwnerPc, sfSlotHeld, sfCachedMark, sfDoneMark,
      sfWaitDoneMark, sfFlag, hslot, -List.countP_eq_zero] at h1 h2 h3 h4 h5 h6
    refine ⟨?_, ?_, ?_, ?_, ?_, ?_⟩ <;>
      simp [countP_mid, sfPastFetch, sfOwnerPc, sfSlotHeld, sfCachedMark, sfDoneMark,
        sfWaitDoneMark, sfFlag, hslot, -List.countP_eq_zero]
    all_goals first | omega | exact h6
  | toHit l₁ l₂ _ hpcs hslot hcached =>
    rw [hpcs] at h1 h2 h3 h4 h5 h6
    simp [countP_mid, sfPastFetch, sfOwnerPc, sfSlotHeld, sfCachedMark, sfDoneMark,
      sfWaitDoneMark, sfFlag, hslot, hcached, -List.countP_eq_zero] at h1 h2 h3 h4 h5 h6
    refine ⟨?_, ?_, ?_, ?_, ?_, ?_⟩ <;>
      simp [countP_mid, sfPastFetch, sfOwnerPc, sfSlotHeld, sfCachedMark, sfDoneMark,
        sfWaitDoneMark, sfFlag, hslot, hcached, -List.countP_eq_zero]
    all_goals first | omega | exact h6
  | createSlot l₁ l₂ _ hpcs hslot hcached =>
    rw [hpcs] at h1 h2 h3 h4 h5 h6
    have hsp1 := countP_owner_split l₁
    have hsp2 := countP_owner_split l₂
    have hs1 := sfSlotHeld_le_owner l₁
    have hs2 := sfSlotHeld_le_owner l₂
    have hc1 := sfCachedMark_le_owner l₁
    have hc2 := sfCachedMark_le_owner l₂
    have hd1 := sfDoneMark_le_cached l₁
    have hd2 := sfDoneMark_le_cached l₂
    simp [countP_mid, sfPastFetch, sfOwnerPc, sfSlotHeld, sfCachedMark, sfDoneMark,
      sfWaitDoneMark, sfFlag, hslot, hcached, -List.countP_eq_zero] at h1 h2 h3 h4 h5 h6
    refine ⟨?_, ?_, ?_, ?_, ?_, ?_⟩ <;>
      simp [countP_mid, sfPastFetch, sfOwnerPc, sfSlotHeld, sfCachedMark, sfDoneMark,
        sfWaitDoneMark, sfFlag, hslot, hcached, -List.countP_eq_zero]
    all_goals first | omega | exact h6
  | fetchOk l₁ l₂ _ hpcs =>
    rw [hpcs] at h1 h2 h3 h4 h5 h6
    simp [countP_mid, sfPastFetch, sfOwnerPc, sfSlotHeld, sfCachedMark, sfDoneMark,
      sfWaitDoneMark, sfFlag, -List.countP_eq_zero] at h1 h2 h3 h4 h5 h6
    refine ⟨?_, ?_, ?_, ?_, ?_, ?_⟩ <;>
      simp [countP_mid, sfPastFetch, sfOwnerPc, sfSlotHeld, sfCachedMark, sfDoneMark,
        sfWaitDoneMark, sfFlag, -List.countP_eq_zero]
    all_goals first | omega | exact h6
  | fetchErr l₁ l₂ _ hpcs =>
    rw [hpcs] at h1 h2 h3 h4 h5 h6
    simp [countP_mid, sfPastFetch, sfOwnerPc, sfSlotHeld, sfCachedMark, sfDoneMark,
      sfWaitDoneMark, sfFlag, -List.countP_eq_zero] at h1 h2 h3 h4 h5 h6
    refine ⟨?_, ?_, ?_, ?_, ?_, ?_⟩ <;>
      simp [countP_mid, sfPastFetch, sfOwnerPc, sfSlotHeld, sfCachedMark, sfDoneMark,
        sfWaitDoneMark, sfFlag, -List.countP_eq_zero]
    all_goals first | omega | exact h6
  | installDone l₁ l₂ _ hpcs =>
    rw [hpcs] at h1 h2 h3 h4 h5 h6
    have hc1 := sfCachedMark_le_owner l₁
    have hc2 := sfCachedMark_le_owner l₂
    have hd1 := sfDoneMark_le_cached l₁
    have hd2 := sfDoneMark_le_cached l₂
    simp [countP_mid, sfPastFetch, sfOwnerPc, sfSlotHeld, sfCachedMark, sfDoneMark,
      sfWaitDoneMark, sfFlag, -List.countP_eq_zero] at h1 h2 h3 h4 h5 h6
    refine ⟨?_, ?_, ?_, ?_, ?_, ?_⟩ <;>
      simp [countP_mid, sfPastFetch, sfOwnerPc, sfSlotHeld, sfCachedMark, sfDoneMark,
        sfWaitDoneMark, sfFlag, -List.countP_eq_zero]
    all_goals first | omega | exact h6
  | closeDone l₁ l₂ _ hpcs =>
    rw [hpcs] at h1 h2 h3 h4 h5 h6
    have hs1 := sfSlotHeld_le_owner l₁
    have hs2 := sfSlotHeld_le_owner l₂
    have hd1 := sfDoneMark_le_owner l₁
    have hd2 := sfDoneMark_le_owner l₂
    simp [countP_mid, sfPastFetch, sfOwnerPc, sfSlotHeld, sfCachedMark, sfDoneMark,
      sfWaitDoneMark, sfFlag, -List.countP_eq_zero] at h1 h2 h3 h4 h5 h6
    refine ⟨?_, ?_, ?_, ?_, ?_, ?_⟩ <;>
      simp [countP_mid, sfPastFetch, sfOwnerPc, sfSlotHeld, sfCachedMark, sfDoneMark,
        sfWaitDoneMark, sfFlag, -List.countP_eq_zero]
    all_goals first | omega | exact h6
  | waitRelease l₁ l₂ _ hpcs hsig =>
    rw [hpcs] at h1 h2 h3 h4 h5 h6
    simp [countP_mid, sfPastFetch, sfOwnerPc, sfSlotHeld, sfCachedMark, sfDoneMark,
      sfWaitDoneMark, sfFlag, hsig, -List.countP_eq_zero] at h1 h2 h3 h4 h5 h6
    refine ⟨?_, ?_, ?_, ?_, ?_, ?_⟩ <;>
      simp [countP_mid, sfPastFetch, sfOwnerPc, sfSlotHeld, sfCachedMark, sfDoneMark,
        sfWaitDoneMark, sfFlag, hsig, -List.countP_eq_zero]
    all_goals first | omega | exact h6

/-- The invariant holds in every reachable state. -/
theorem sfInv_reachable {n : Nat} {s : SFState} (h : SFReachable n s) : sfInv s := by
  induction h with
  | refl => exact sfInv_init n
  | tail _ hstep ih => exact sfInv_step ih hstep

/-- C1: for any FetchKey and any set of concurrent `Fetch` calls on it, the
origin downloader is invoked at most once across the set — in every state
reachable by any interleaving, `DownloadFunc` has run at most once; and a
waiter is released (reaches `waitDone`) only after the single download has
completed and populated the cache.  The step relation itself enforces that
exactly the slot-creating goroutine invokes the downloader and that every
other caller parks on the slot's channel until it is closed. -/
theorem single_flight_at_most_one_download {n : Nat} {s : SFState} (h : SFReachable n s) :
    s.downloads ≤ 1 ∧
      (0 < s.pcs.countP sfWaitDoneMark → s.cached = true ∧ s.downloads = 1) := by
  obtain ⟨h1, h2, h3, h4, h5, h6⟩ := sfInv_reachable h
  have hpf := sfPastFetch_le_owner s.pcs
  have hdc := sfDoneMark_le_cached s.pcs
  have hdp := sfDoneMark_le_pastFetch s.pcs
  refine ⟨by omega, ?_⟩
  intro hw
  rcases h6 with h0 | hsig
  · omega
  · rw [hsig] at h5
    simp [sfFlag, -List.countP_eq_zero] at h5
    constructor
    · cases hc : s.cached
      · rw [hc] at h4
        simp [sfFlag, -List.countP_eq_zero] at h4
        exfalso
        omega
      · rfl
    · omega

/-- Witness for C1: a complete two-caller interleaving — one goroutine
creates the slot, downloads, installs and closes; the other waits and is
released — reaches a state with exactly one download. -/
theorem single_flight_witness :
    (⟨[.ownerDone, .waitDone], false, true, true, 1⟩ : SFState).downloads ≤ 1 ∧
      (0 < (⟨[.ownerDone, .waitDone], false, true, true, 1⟩ : SFState).pcs.countP sfWaitDoneMark →
        (⟨[.ownerDone, .waitDone], false, true, true, 1⟩ : SFState).cached = true ∧
          (⟨[.ownerDone, .waitDone], false, true, true, 1⟩ : SFState).downloads = 1) := by
  have s1 : SFStep (sfInit 2) ⟨[.fetch, .start], true, false, false, 0⟩ :=
    SFStep.createSlot [] [.start] (sfInit 2) rfl rfl rfl
  have s2 : SFStep ⟨[.fetch, .start], true, false, false, 0⟩
      ⟨[.fetch, .wait], true, false, false, 0⟩ :=
    SFStep.toWait [.fetch] [] ⟨[.fetch, .start], true, false, false, 0⟩ rfl rfl
  have s3 : SFStep ⟨[.fetch, .wait], true, false, false, 0⟩
      ⟨[.install, .wait], true, false, false, 1⟩ :=
    SFStep.fetchOk [] [.wait] ⟨[.fetch, .wait], true, false, false, 0⟩ rfl
  have s4 : SFStep ⟨[.install, .wait], true, false, false, 1⟩
      ⟨[.closeSlot, .wait], true, false, true, 1⟩ :=
    SFStep.installDone [] [.wait] ⟨[.install, .wait], true, false, false, 1⟩ rfl
  have s5 : SFStep ⟨[.closeSlot, .wait], true, false, true, 1⟩
      ⟨[.ownerDone, .wait], false, true, true, 1⟩ :=
    SFStep.closeDone [] [.wait] ⟨[.closeSlot, .wait], true, false, true, 1⟩ rfl
  have s6 : SFStep ⟨[.ownerDone, .wait], false, true, true, 1⟩
      ⟨[.ownerDone, .waitDone], false, true, true, 1⟩ :=
    SFStep.waitRelease [.ownerDone] [] ⟨[.ownerDone, .wait], false, true, true, 1⟩ rfl rfl
  exact single_flight_at_most_one_download
    (Relation.ReflTransGen.tail
      (Relation.ReflTransGen.tail
        (Relation.ReflTransGen.tail
          (Relation.ReflTransGen.tail
            (Relation.ReflTransGen.tail
              (Relation.ReflTransGen.tail Relation.ReflTransGen.refl s1) s2) s3) s4) s5) s6)

/-- C2 (code-bug evidence): when the downloader fails, `MaybeDownload`
returns at line 110 of part_002 and the in-flight slot is NOT torn down —
the key is still in the `Waiting` map, its channel has not been closed,
and no LRU entry exists, so waiters on that key are never released. -/
theorem maybeDownload_error_keeps_slot :
    maybeDownload ⟨[], [], []⟩ "bucket/file.pdf" "/cache/bucket/file.pdf" (.error "s3 error")
      = (⟨["bucket/file.pdf"], [], []⟩, .error "s3 error") := by
  rfl

/-- C3 (spec-modelled guard): every document request carrying a `token-ttl`
parameter whose Unix-timestamp value is earlier than the current time fails
as unauthorized with HTTP status 401, whatever the other parameters, the
float parser and the document service do. -/
theorem token_ttl_expired_401 (parseFloat : String → Option ℚ) (q : DocQuery)
    (now t : Int) (raw : String)
    (process : Int → Int → ℚ → Int → String → Except WErr (List Nat))
    (hraw : q.tokenTTL = some raw) (hparse : goAtoi raw = some t) (hlt : t < now) :
    documentHandlerTTL parseFloat q now process = .failed 401 := by
  simp [documentHandlerTTL, tokenTTLGuard, hraw, hparse, hlt]

/-- Witness for C3, mirroring `TestHandlerDocumentTokenTTLExpired`: a
request with `page=1` and `token-ttl=100` at time 200 gets a 401. -/
theorem token_ttl_expired_401_witness :
    documentHandlerTTL parseFloatNone ⟨some "1", none, none, none, none, some "100"⟩ 200
      processOk = .failed 401 :=
  token_ttl_expired_401 parseFloatNone ⟨some "1", none, none, none, none, some "100"⟩
    200 100 "100" processOk rfl rfl (by decide)

/-- C4: the URL handed to signature verification depends only on the
whitelisted `page` / `token` / `token-ttl` query parameters — two queries
agreeing on those produce the same verified string, so parameters such as
`scale` and `width` never affect it; and on the test vector of
`TestHandlerURLToVerify` the canonical string drops `scale` and `width`
and re-encodes the rest in sorted key order. -/
theorem urlToVerify_ignores_non_whitelisted (path : String)
    (q₁ q₂ : List (String × String))
    (hsame : q₁.filter (fun kv => kv.1 ∈ verifyWhitelist)
      = q₂.filter (fun kv => kv.1 ∈ verifyWhitelist)) :
    urlToVerify path q₁ = urlToVerify path q₂
    ∧ urlToVerify "/path"
        [("page", "1"), ("token", "2"), ("scale", "3"), ("width", "4"), ("token-ttl", "5")]
      = "/path?page=1&token=2&token-ttl=5" := by
  constructor
  · unfold urlToVerify
    rw [hsame]
  · decide

/-- Witness for C4: a query consisting solely of `scale` and `width`
verifies identically to the empty query. -/
theorem urlToVerify_ignores_witness :
    urlToVerify "/doc" [("scale", "2"), ("width", "9")] = urlToVerify "/doc" []
    ∧ urlToVerify "/path"
        [("page", "1"), ("token", "2"), ("scale", "3"), ("width", "4"), ("token-ttl", "5")]
      = "/path?page=1&token=2&token-ttl=5" :=
  urlToVerify_ignores_non_whitelisted "/doc" [("scale", "2"), ("width", "9")] [] (by decide)

/-- C7: when the backing object store reports the key as absent
(`NoSuchKey`), `Cache.Get` returns `(nil, nil)` — no reader and no error —
and `Cipher.Get` passes the miss through unchanged. -/
theorem cache_miss_nil_nil (aead : AEAD) (s3 : String → S3GetResult) (key : String)
    (habsent : s3 key = .noSuchKey) :
    cacheGet s3 key = .ok none ∧ cipherGet aead (cacheGet s3 key) = .ok none := by
  unfold cacheGet
  rw [habsent]
  exact ⟨rfl, rfl⟩

/-- Witness for C7: a concrete store holding nothing. -/
theorem cache_miss_nil_nil_witness :
    cacheGet (fun _ => .noSuchKey) "artifact-key" = .ok none
    ∧ cipherGet ⟨12, fun _ p => p, fun _ c => some c⟩
        (cacheGet (fun _ => .noSuchKey) "artifact-key") = .ok none :=
  cache_miss_nil_nil ⟨12, fun _ p => p, fun _ c => some c⟩ (fun _ => .noSuchKey)
    "artifact-key" rfl

/-- C10: when the configured URL signing secret trims to the empty string,
`serveHttp` stores the empty secret and `isValidSignature` returns true
for every request without ever writing a 403 — the server runs in
insecure mode. -/
theorem empty_secret_skips_verification (urlSecret : String) (sigValid : Bool)
    (hempty : serveHttpSecret urlSecret = "") :
    isValidSignature (serveHttpSecret urlSecret) sigValid = (true, none) := by
  rw [hempty]
  rfl

/-- Witness for C10: a whitespace-only secret disables verification even
when the underlying signature check would fail. -/
theorem empty_secret_skips_verification_witness :
    isValidSignature (serveHttpSecret "   ") false = (true, none) :=
  empty_secret_skips_verification "   " false (by decide)

/-- Any error produced by the validation prefix of `Worker.Process` is a
client error. -/
theorem processValidation_client (page width : Int) (scale : ℚ) (dpi : Int) :
    processValidation page width scale dpi = none
    ∨ ∃ msg, processValidation page width scale dpi = some (.client msg) := by
  unfold processValidation
  split_ifs <;> first | exact Or.inl rfl | exact Or.inr ⟨_, rfl⟩

/-- Out-of-bounds parameters make the validation prefix fail, provided the
page decrement does not wrap (every `page` above the minimal int64). -/
theorem processValidation_rejects (page width : Int) (scale : ℚ) (dpi : Int)
    (hbad : (-9223372036854775808 < page ∧ page < 1)
      ∨ width < 0 ∨ width > 4096 ∨ scale < 0 ∨ scale > 3 ∨ dpi > 600) :
    ∃ msg, processValidation page width scale dpi = some (.client msg) := by
  unfold processValidation int64Wrap
  rcases hbad with h | h | h | h | h | h <;>
    split_ifs <;>
    first
      | exact ⟨_, rfl⟩
      | (exfalso; omega)
      | (exfalso; linarith)

/-- C5 counterexample: at `page = -9223372036854775808` (the minimal
int64, which `strconv.Atoi` accepts) the Go decrement `page--` wraps to
9223372036854775807, so although `page < 1`, `Worker.Process` passes
validation, starts the fetch and renders successfully — refuting the
claim that every `page < 1` fails with a client error before any file is
fetched. -/
theorem process_page_wrap_counterexample :
    (-9223372036854775808 : Int) < 1
    ∧ processValidation (-9223372036854775808) 0 0 0 = none
    ∧ (workerProcess (-9223372036854775808) 0 0 0 "png" true (.ok [1])
        (fun _ p => .ok p)).1 = .ok [1]
    ∧ (workerProcess (-9223372036854775808) 0 0 0 "png" true (.ok [1])
        (fun _ p => .ok p)).2 = true := by
  refine ⟨by decide, ?_, ?_, ?_⟩ <;> rfl

/-- C5 (amended): `Worker.Process` rejects `page < 1` (for every `page`
above the minimal int64, where the Go decrement does not wrap),
`width < 0`, `width > 4096`, `scale < 0`, `scale > 3` and `dpi > 600`
with a client error — mapped by the handler to HTTP 400 — before the
file fetch is even started; and the boundary values `page = 1`,
`width = 4096`, `scale = 3`, `dpi = 600` pass validation. -/
theorem process_bounds_rejected_before_fetch (page width : Int) (scale : ℚ) (dpi : Int)
    (format : String) (sigValid : Bool) (fetchResult : Except WErr (List Nat))
    (render : String → List Nat → Except WErr (List Nat))
    (hbad : (-9223372036854775808 < page ∧ page < 1)
      ∨ width < 0 ∨ width > 4096 ∨ scale < 0 ∨ scale > 3 ∨ dpi > 600) :
    (∃ msg,
      (workerProcess page width scale dpi format sigValid fetchResult render).1
        = .error (.client msg)
      ∧ statusOfProcessResult ((workerProcess page width scale dpi format
          sigValid fetchResult render).1) = 400)
    ∧ (workerProcess page width scale dpi format sigValid fetchResult render).2 = false
    ∧ processValidation 1 4096 3 600 = none := by
  obtain ⟨msg, hmsg⟩ := processValidation_rejects page width scale dpi hbad
  unfold workerProcess
  rw [hmsg]
  exact ⟨⟨msg, rfl, rfl⟩, rfl, rfl⟩

/-- Witness for C5: `width = 4097` is rejected with status 400 and no
fetch, while the boundary values pass validation. -/
theorem process_bounds_witness :
    (∃ msg,
      (workerProcess 1 4097 1 72 "png" true (.ok [1]) (fun _ p => .ok p)).1
        = .error (.client msg)
      ∧ statusOfProcessResult ((workerProcess 1 4097 1 72 "png" true (.ok [1])
          (fun _ p => .ok p)).1) = 400)
    ∧ (workerProcess 1 4097 1 72 "png" true (.ok [1]) (fun _ p => .ok p)).2 = false
    ∧ processValidation 1 4096 3 600 = none :=
  process_bounds_rejected_before_fetch 1 4097 1 72 "png" true (.ok [1]) (fun _ p => .ok p)
    (by norm_num)

/-- C6: `Put` followed by `Get` on the ArtifactCache is the identity:
`Cipher.Put` seals the payload under a nonce of the cipher's nonce size
and stores nonce-then-ciphertext through `Cache.Put`; `Cipher.Get` reads
it back through `Cache.Get`, splits the first nonce-size bytes, opens the
remainder, and returns the original payload.  The AEAD hypothesis is the
correctness contract of the external Go `crypto/cipher` GCM
implementation. -/
theorem artifact_put_get_roundtrip (aead : AEAD) (s3 : String → S3GetResult) (k : String)
    (nonce v : List Nat) (hn : nonce.length = aead.nonceSize)
    (hopen : aead.openFn nonce (aead.sealFn nonce v) = some v) :
    cipherGet aead (cacheGet (cachePut s3 k (cipherPut aead nonce v)) k) = .ok (some v) := by
  have hget : cacheGet (cachePut s3 k (cipherPut aead nonce v)) k
      = .ok (some (cipherPut aead nonce v)) := by
    unfold cacheGet cachePut
    simp
  rw [hget]
  have hlen : ¬ ((cipherPut aead nonce v).length < aead.nonceSize) := by
    unfold cipherPut
    rw [List.length_append, ← hn]
    omega
  simp only [cipherGet, if_neg hlen]
  unfold cipherPut
  rw [← hn, List.take_left, List.drop_left, hopen]

/-- Witness for C6: a trivial AEAD (identity seal) with a 12-byte nonce
round-trips a concrete payload through the cache. -/
theorem artifact_put_get_roundtrip_witness :
    cipherGet ⟨12, fun _ p => p, fun _ c => some c⟩
      (cacheGet (cachePut (fun _ => .noSuchKey) "k"
        (cipherPut ⟨12, fun _ p => p, fun _ c => some c⟩
          [0, 1, 2, 3, 4, 5, 6, 7, 8, 9, 10, 11] [7, 7, 7])) "k")
      = .ok (some [7, 7, 7]) :=
  artifact_put_get_roundtrip ⟨12, fun _ p => p, fun _ c => some c⟩ (fun _ => .noSuchKey)
    "k" [0, 1, 2, 3, 4, 5, 6, 7, 8, 9, 10, 11] [7, 7, 7] (by decide) rfl

/-- A successful `rcLookup` returns a cached entry. -/
theorem rcLookup_mem {entries : List (String × Nat)} {f : String} {h : Nat}
    (hl : rcLookup entries f = some h) : (f, h) ∈ entries := by
  unfold rcLookup at hl
  rcases Option.map_eq_some'.mp hl with ⟨e, hfind, hev⟩
  have hmem := List.mem_of_find?_eq_some hfind
  have hkey : e.1 = f := by simpa using List.find?_some hfind
  obtain ⟨e₁, e₂⟩ := e
  subst hkey
  subst hev
  exact hmem

/-- A failed `rcLookup` means no cached entry has the key. -/
theorem rcLookup_none {entries : List (String × Nat)} {f : String}
    (hl : rcLookup entries f = none) : ∀ e ∈ entries, e.1 ≠ f := by
  unfold rcLookup at hl
  have hfind : entries.find? (fun e => e.1 = f) = none := by
    cases hf : entries.find? (fun e => e.1 = f) with
    | none => rfl
    | some e => rw [hf] at hl; simp at hl
  intro e he
  have := List.find?_eq_none.mp hfind e he
  simpa using this

/-- Evaluation of `GetRasterizer` on a cache hit. -/
theorem rcGet_hit {s : RCState} {f : String} {h : Nat}
    (hl : rcLookup s.entries f = some h) :
    rcGet s f = ({ s with entries := (f, h) :: rcErase s.entries f }, h) := by
  unfold rcGet
  rw [hl]

/-- Evaluation of `GetRasterizer` on a miss that overflows the capacity. -/
theorem rcGet_miss_evict {s : RCState} {f : String}
    (hl : rcLookup s.entries f = none)
    (hlen : ((f, s.nextId) :: s.entries).length > s.capacity) :
    rcGet s f = ({ s with
      entries := ((f, s.nextId) :: s.entries).take s.capacity,
      stopped := (((f, s.nextId) :: s.entries).drop s.capacity).map (fun e => e.2)
        ++ s.stopped,
      nextId := s.nextId + 1 }, s.nextId) := by
  unfold rcGet
  rw [hl]
  simp only [hlen, if_pos]

/-- Evaluation of `GetRasterizer` on a miss within capacity. -/
theorem rcGet_miss_fit {s : RCState} {f : String}
    (hl : rcLookup s.entries f = none)
    (hlen : ¬ ((f, s.nextId) :: s.entries).length > s.capacity) :
    rcGet s f = ({ s with
      entries := (f, s.nextId) :: s.entries,
      nextId := s.nextId + 1 }, s.nextId) := by
  unfold rcGet
  rw [hl]
  simp only [hlen, if_neg, if_false]

/-- Erasing keeps only entries with other keys. -/
theorem rcErase_mem {entries : List (String × Nat)} {f : String} {e : String × Nat}
    (he : e ∈ rcErase entries f) : e ∈ entries ∧ e.1 ≠ f := by
  unfold rcErase at he
  have h1 := List.mem_of_mem_filter he
  have h2 := List.of_mem_filter he
  simp only [decide_eq_true_eq] at h2
  exact ⟨h1, h2⟩

/-- An entry with another key survives `rcErase`. -/
theorem rcErase_mem_of {entries : List (String × Nat)} {f : String} {e : String × Nat}
    (he : e ∈ entries) (hk : e.1 ≠ f) : e ∈ rcErase entries f := by
  unfold rcErase
  exact List.mem_filter.mpr ⟨he, by simpa using hk⟩

/-- Keys of an erased list are a sublist of the original keys. -/
theorem rcErase_keys_sublist (entries : List (String × Nat)) (f : String) :
    List.Sublist ((rcErase entries f).map (fun e => e.1)) (entries.map (fun e => e.1)) :=
  (List.filter_sublist entries).map _

/-- Values of an erased list are a sublist of the original values. -/
theorem rcErase_vals_sublist (entries : List (String × Nat)) (f : String) :
    List.Sublist ((rcErase entries f).map (fun e => e.2)) (entries.map (fun e => e.2)) :=
  (List.filter_sublist entries).map _

/-- The `RasterCache` invariant holds initially. -/
theorem rcInv_init (capacity : Nat) (hcap : 1 ≤ capacity) : rcInv (rcInit capacity) := by
  refine ⟨hcap, ?_, ?_, ?_, ?_, ?_⟩ <;> simp [rcInit]

/-- `RasterCache.Remove` preserves the invariant. -/
theorem rcInv_remove {s : RCState} (hinv : rcInv s) (f : String) : rcInv (rcRemove s f) := by
  obtain ⟨hcap, hkeys, hvals, hstop, hlt, hstoplt⟩ := hinv
  unfold rcRemove
  cases hl : rcLookup s.entries f with
  | none => exact ⟨hcap, hkeys, hvals, hstop, hlt, hstoplt⟩
  | some h =>
    have hmem := rcLookup_mem hl
    refine ⟨hcap, ?_, ?_, ?_, ?_, ?_⟩
    · exact hkeys.sublist (rcErase_keys_sublist s.entries f)
    · exact hvals.sublist (rcErase_vals_sublist s.entries f)
    · intro e he
      obtain ⟨hee, hef⟩ := rcErase_mem he
      intro hin
      rcases List.mem_cons.mp hin with hh | hh
      · have : e = (f, h) := List.inj_on_of_nodup_map hvals hee hmem hh
        exact hef (by rw [this])
      · exact hstop e hee hh
    · intro e he
      exact hlt e (rcErase_mem he).1
    · intro x hx
      rcases List.mem_cons.mp hx with hh | hh
      · rw [hh]; exact hlt (f, h) hmem
      · exact hstoplt x hh

/-- `RasterCache.Purge` preserves the invariant. -/
theorem rcInv_purge {s : RCState} (hinv : rcInv s) : rcInv (rcPurge s) := by
  obtain ⟨hcap, hkeys, hvals, hstop, hlt, hstoplt⟩ := hinv
  refine ⟨hcap, by simp [rcPurge], by simp [rcPurge], by simp [rcPurge], by simp [rcPurge], ?_⟩
  intro x hx
  simp only [rcPurge] at hx
  rcases List.mem_append.mp hx with hh | hh
  · obtain ⟨e, he, hev⟩ := List.mem_map.mp hh
    rw [← hev]
    exact hlt e he
  · exact hstoplt x hh

/-- `RasterCache.GetRasterizer` preserves the invariant. -/
theorem rcInv_get {s : RCState} (hinv : rcInv s) (f : String) : rcInv (rcGet s f).1 := by
  obtain ⟨hcap, hkeys, hvals, hstop, hlt, hstoplt⟩ := hinv
  cases hl : rcLookup s.entries f with
  | some h =>
    rw [rcGet_hit hl]
    have hmem := rcLookup_mem hl
    refine ⟨hcap, ?_, ?_, ?_, ?_, hstoplt⟩
    · simp only [List.map_cons]
      refine List.nodup_cons.mpr ⟨?_, hkeys.sublist (rcErase_keys_sublist s.entries f)⟩
      intro hin
      obtain ⟨e, he, hef⟩ := List.mem_map.mp hin
      exact (rcErase_mem he).2 hef
    · simp only [List.map_cons]
      refine List.nodup_cons.mpr ⟨?_, hvals.sublist (rcErase_vals_sublist s.entries f)⟩
      intro hin
      obtain ⟨e, he, hev⟩ := List.mem_map.mp hin
      have : e = (f, h) := List.inj_on_of_nodup_map hvals (rcErase_mem he).1 hmem hev
      exact (rcErase_mem he).2 (by rw [this])
    · intro e he
      rcases List.mem_cons.mp he with hh | hh
      · rw [hh]; exact hstop (f, h) hmem
      · exact hstop e (rcErase_mem hh).1
    · intro e he
      rcases List.mem_cons.mp he with hh | hh
      · rw [hh]; exact hlt (f, h) hmem
      · exact hlt e (rcErase_mem hh).1
  | none =>
    have hko := rcLookup_none hl
    have hkeyIns : (((f, s.nextId) :: s.entries).map (fun e => e.1)).Nodup := by
      simp only [List.map_cons]
      refine List.nodup_cons.mpr ⟨?_, hkeys⟩
      intro hin
      obtain ⟨e, he, hef⟩ := List.mem_map.mp hin
      exact hko e he hef
    have hvalIns : (((f, s.nextId) :: s.entries).map (fun e => e.2)).Nodup := by
      simp only [List.map_cons]
      refine List.nodup_cons.mpr ⟨?_, hvals⟩
      intro hin
      obtain ⟨e, he, hev⟩ := List.mem_map.mp hin
      exact absurd hev (Nat.ne_of_lt (hlt e he))
    have hmemIns : ∀ e ∈ (f, s.nextId) :: s.entries, e.2 < s.nextId + 1 := by
      intro e he
      rcases List.mem_cons.mp he with hh | hh
      · rw [hh]; omega
      · have := hlt e hh; omega
    by_cases hlen : ((f, s.nextId) :: s.entries).length > s.capacity
    · rw [rcGet_miss_evict hl hlen]
      refine ⟨hcap, ?_, ?_, ?_, ?_, ?_⟩
      · exact hkeyIns.sublist ((List.take_sublist _ _).map _)
      · exact hvalIns.sublist ((List.take_sublist _ _).map _)
      · intro e he
        have heIns := List.mem_of_mem_take he
        intro hin
        rcases List.mem_append.mp hin with hh | hh
        · have hdisj : List.Disjoint
              ((((f, s.nextId) :: s.entries).map (fun e => e.2)).take s.capacity)
              ((((f, s.nextId) :: s.entries).map (fun e => e.2)).drop s.capacity) := by
            apply List.disjoint_of_nodup_append
            rw [List.take_append_drop]
            exact hvalIns
          have hmemtake : e.2 ∈ (((f, s.nextId) :: s.entries).map (fun e => e.2)).take
              s.capacity := by
            rw [← List.map_take]
            exact List.mem_map.mpr ⟨e, he, rfl⟩
          rw [List.map_drop] at hh
          exact hdisj hmemtake hh
        · rcases List.mem_cons.mp heIns with hh2 | hh2
          · rw [hh2] at hh
            exact absurd (hstoplt _ hh) (lt_irrefl _)
          · exact hstop e hh2 hh
      · intro e he
        exact hmemIns e (List.mem_of_mem_take he)
      · intro x hx
        rcases List.mem_append.mp hx with hh | hh
        · obtain ⟨e, he, hev⟩ := List.mem_map.mp hh
          rw [← hev]
          exact hmemIns e (List.mem_of_mem_drop he)
        · have := hstoplt x hh
          show x < s.nextId + 1
          omega
    · rw [rcGet_miss_fit hl hlen]
      refine ⟨hcap, hkeyIns, hvalIns, ?_, hmemIns, ?_⟩
      · intro e he
        rcases List.mem_cons.mp he with hh | hh
        · rw [hh]
          intro hin
          exact absurd rfl (Nat.ne_of_lt (hstoplt _ hin))
        · exact hstop e hh
      · intro x hx
        have := hstoplt x hx
        show x < s.nextId + 1
        omega

/-- Evaluation of `RasterCache.Remove` when the path is absent. -/
theorem rcRemove_none {s : RCState} {f : String}
    (hl : rcLookup s.entries f = none) : rcRemove s f = s := by
  unfold rcRemove
  rw [hl]

/-- Evaluation of `RasterCache.Remove` when the path is cached. -/
theorem rcRemove_some {s : RCState} {f : String} {h : Nat}
    (hl : rcLookup s.entries f = some h) :
    rcRemove s f = { s with entries := rcErase s.entries f, stopped := h :: s.stopped } := by
  unfold rcRemove
  rw [hl]

/-- Every `RasterCache` operation preserves the invariant. -/
theorem rcInv_step {s : RCState} (hinv : rcInv s) (op : RCOp) : rcInv (rcStep s op) := by
  cases op with
  | get f => exact rcInv_get hinv f
  | remove f => exact rcInv_remove hinv f
  | purge => exact rcInv_purge hinv
  | fileEvict f => exact rcInv_remove hinv f

/-- The invariant holds after any operation sequence. -/
theorem rcInv_run (capacity : Nat) (hcap : 1 ≤ capacity) (ops : List RCOp) :
    rcInv (rcRun capacity ops) := by
  have hgen : ∀ (l : List RCOp) (s : RCState), rcInv s → rcInv (l.foldl rcStep s) := by
    intro l
    induction l with
    | nil => intro s hs; exact hs
    | cons op l ih =>
      intro s hs
      exact ih _ (rcInv_step hs op)
  exact hgen ops _ (rcInv_init capacity hcap)

/-- C8: after any sequence of cache operations, (a) `GetRasterizer` never
returns a stopped handle — the handle it hands back is not in the stopped
set of the resulting state — and (b) whenever an entry leaves the cache
through any operation (LRU eviction inside `GetRasterizer`, explicit
`Remove`, `Purge`, or the FileCache `OnEvict` coupling), its handle is
stopped. -/
theorem raster_removal_stops_handle (capacity : Nat) (hcap : 1 ≤ capacity)
    (ops : List RCOp) (f : String) :
    ((rcGet (rcRun capacity ops) f).2 ∉ (rcGet (rcRun capacity ops) f).1.stopped)
    ∧ (∀ op : RCOp, ∀ e ∈ (rcRun capacity ops).entries,
        e.2 ∉ (rcStep (rcRun capacity ops) op).entries.map (fun x => x.2) →
        e.2 ∈ (rcStep (rcRun capacity ops) op).stopped) := by
  obtain ⟨hcap2, hkeys, hvals, hstop, hlt, hstoplt⟩ := rcInv_run capacity hcap ops
  constructor
  · cases hl : rcLookup (rcRun capacity ops).entries f with
    | some h =>
      rw [rcGet_hit hl]
      exact hstop (f, h) (rcLookup_mem hl)
    | none =>
      by_cases hlen : ((f, (rcRun capacity ops).nextId) :: (rcRun capacity ops).entries).length
          > (rcRun capacity ops).capacity
      · rw [rcGet_miss_evict hl hlen]
        intro hin
        rcases List.mem_append.mp hin with hh | hh
        · obtain ⟨e, he, hev⟩ := List.mem_map.mp hh
          obtain ⟨k, hk⟩ : ∃ k, (rcRun capacity ops).capacity = k + 1 :=
            ⟨(rcRun capacity ops).capacity - 1, by omega⟩
          rw [hk, List.drop_succ_cons] at he
          have := hlt e (List.mem_of_mem_drop he)
          omega
        · exact absurd (hstoplt _ hh) (lt_irrefl _)
      · rw [rcGet_miss_fit hl hlen]
        intro hin
        exact absurd (hstoplt _ hin) (lt_irrefl _)
  · have hremove : ∀ (f₂ : String), ∀ e ∈ (rcRun capacity ops).entries,
        e.2 ∉ (rcRemove (rcRun capacity ops) f₂).entries.map (fun x => x.2) →
        e.2 ∈ (rcRemove (rcRun capacity ops) f₂).stopped := by
      intro f₂ e he hnot
      cases hl : rcLookup (rcRun capacity ops).entries f₂ with
      | none =>
        rw [rcRemove_none hl] at hnot
        exact absurd (List.mem_map.mpr ⟨e, he, rfl⟩) hnot
      | some h =>
        rw [rcRemove_some hl] at hnot ⊢
        by_cases hk : e.1 = f₂
        · have heq : e = (f₂, h) :=
            List.inj_on_of_nodup_map hkeys he (rcLookup_mem hl) hk
          rw [heq]
          exact List.mem_cons_self h _
        · exact absurd
            (List.mem_map.mpr ⟨e, rcErase_mem_of he hk, rfl⟩) hnot
    intro op e he hnot
    cases op with
    | get f₂ =>
      cases hl : rcLookup (rcRun capacity ops).entries f₂ with
      | some h =>
        have hstep : rcStep (rcRun capacity ops) (.get f₂) = (rcGet (rcRun capacity ops) f₂).1 :=
          rfl
        rw [hstep, rcGet_hit hl] at hnot ⊢
        by_cases hk : e.1 = f₂
        · have heq : e = (f₂, h) :=
            List.inj_on_of_nodup_map hkeys he (rcLookup_mem hl) hk
          exact absurd (List.mem_map.mpr ⟨(f₂, h), List.mem_cons_self _ _, by rw [heq]⟩) hnot
        · exact absurd
            (List.mem_map.mpr ⟨e, List.mem_cons_of_mem _ (rcErase_mem_of he hk), rfl⟩) hnot
      | none =>
        have hstep : rcStep (rcRun capacity ops) (.get f₂) = (rcGet (rcRun capacity ops) f₂).1 :=
          rfl
        by_cases hlen : ((f₂, (rcRun capacity ops).nextId) :: (rcRun capacity ops).entries).length
            > (rcRun capacity ops).capacity
        · rw [hstep, rcGet_miss_evict hl hlen] at hnot ⊢
          have hins : e ∈ List.take (rcRun capacity ops).capacity
                ((f₂, (rcRun capacity ops).nextId) :: (rcRun capacity ops).entries)
              ++ List.drop (rcRun capacity ops).capacity
                ((f₂, (rcRun capacity ops).nextId) :: (rcRun capacity ops).entries) := by
            rw [List.take_append_drop]
            exact List.mem_cons_of_mem _ he
          rcases List.mem_append.mp hins with hh | hh
          · exact absurd (List.mem_map.mpr ⟨e, hh, rfl⟩) hnot
          · exact List.mem_append_left _ (List.mem_map.mpr ⟨e, hh, rfl⟩)
        · rw [hstep, rcGet_miss_fit hl hlen] at hnot ⊢
          exact absurd (List.mem_map.mpr ⟨e, List.mem_cons_of_mem _ he, rfl⟩) hnot
    | remove f₂ => exact hremove f₂ e he hnot
    | purge =>
      exact List.mem_append_left _ (List.mem_map.mpr ⟨e, he, rfl⟩)
    | fileEvict f₂ => exact hremove f₂ e he hnot

/-- Witness for C8: in a fresh cache of capacity one, after caching one
document, a lookup of another path returns a handle that has not been
stopped. -/
theorem raster_removal_stops_handle_witness :
    (rcGet (rcRun 1 [RCOp.get "a"]) "b").2 ∉ (rcGet (rcRun 1 [RCOp.get "a"]) "b").1.stopped :=
  (raster_removal_stops_handle 1 (by decide) [RCOp.get "a"] "b").1

/-- Evaluation of `handler.document` on a request with `page=1` and only a
`format` parameter: the outcome is decided by the format switch and the
service result. -/
theorem documentHandler_formatReq (parseFloat : String → Option ℚ) (f : Option String)
    (process : Int → Int → ℚ → Int → String → Except WErr (List Nat)) :
    documentHandler parseFloat (formatReq f) process =
      match handlerFormat f with
      | none => .failed 400
      | some (format, contentType) =>
        match process 1 0 0 0 format with
        | .ok _ => .rendered 200 contentType format
        | .error e => .failed (statusOfProcessResult (.error e)) := by
  rfl

/-- C9 counterexample: the handler rejects `format=jpeg` and
`format=svg+xml` with HTTP 400 — they are not accepted render formats,
contradicting the claim that the format parameter accepts png, jpeg,
svg+xml and html. -/
theorem format_jpeg_svg_rejected :
    documentHandler parseFloatNone (formatReq (some "jpeg")) processOk = .failed 400
    ∧ documentHandler parseFloatNone (formatReq (some "svg+xml")) processOk = .failed 400 :=
  ⟨rfl, rfl⟩

/-- C9 (amended): the `format` parameter accepts exactly `png` and `html`
(an empty or absent value defaults to `png`); every other value is
rejected with HTTP 400, and the response content type is `image/png` for
`png` and `text/html` for `html`. -/
theorem format_accepts_png_html (f : String) :
    (documentHandler parseFloatNone (formatReq (some f)) processOk = .failed 400
      ↔ ¬ (f = "png" ∨ f = "html" ∨ f = ""))
    ∧ documentHandler parseFloatNone (formatReq none) processOk
        = .rendered 200 "image/png" "png"
    ∧ documentHandler parseFloatNone (formatReq (some "png")) processOk
        = .rendered 200 "image/png" "png"
    ∧ documentHandler parseFloatNone (formatReq (some "html")) processOk
        = .rendered 200 "text/html" "html" := by
  refine ⟨?_, rfl, rfl, rfl⟩
  rw [documentHandler_formatReq]
  unfold handlerFormat
  by_cases h1 : f = "png" <;> by_cases h2 : f = "html" <;> by_cases h3 : f = "" <;>
    simp [h1, h2, h3, processOk, statusOfProcessResult]

/-- Witness for C9 (amended): the characterization applied at
`format=webp`, which is rejected. -/
theorem format_accepts_png_html_witness :
    documentHandler parseFloatNone (formatReq (some "webp")) processOk = .failed 400 :=
  (format_accepts_png_html "webp").1.mpr (by simp)

end LazyRaster
